import Mathlib

/-!
Shallow embedding of `src/data_store/sparseUtilizationList.py`.

Timestamps and counters are integers (`Int`); utilization values, which the
source stores as doubles but computes with exact integer/sample arithmetic,
are embedded as rationals (`ℚ`).  Python exceptions are embedded as an
explicit error type threaded through `Except`.  Dictionaries (which preserve
insertion order in Python) are embedded as insertion-ordered association
lists.
-/

set_option autoImplicit false

/-- Python exceptions that the embedded code can raise, plus the
`InvalidArgument` error named by the specification's error taxonomy
(which the source never raises). -/
inductive PyError where
  | zeroDivisionError
  | indexError
  | valueError
  | keyError
  | invalidArgument
deriving DecidableEq, Repr

/-- One edge-event record `{'index': ..., 'counter': ..., 'util': ...}`. -/
structure Event where
  index : Int
  counter : Int
  util : ℚ
deriving DecidableEq, Repr

/-- The synthetic zero state `{'index': 0, 'counter': 0, 'util': 0}` used by
`calcCurrentUtil` when there is no prior event. -/
def zeroEvent : Event := { index := 0, counter := 0, util := 0 }

/-- The `SparseUtilizationList` object: `locationDict` maps a location to its
event sequence, `cLocationDict` maps a location to the finalized
struct-of-arrays copy handed to the native kernel (embedded as the same
event-record list). -/
structure SUL where
  locationDict : List (Nat × List Event)
  cLocationDict : List (Nat × List Event)
deriving DecidableEq, Repr

/-- `SparseUtilizationList.sortAtLoc`: the source evaluates
`sorted(self.locationDict[loc], key=lambda x: x['index'])` — which allocates
a sorted copy and discards it — and returns.  The store itself is therefore
returned unchanged; accessing a missing location raises `KeyError`. -/
def sortAtLoc (s : SUL) (loc : Nat) : Except PyError SUL :=
  match s.locationDict.lookup loc with
  | none => .error .keyError
  | some _ => .ok s

/-- `SparseUtilizationList.calcCurrentUtil`: with `last` the prior event (or
the zero state), returns `(index - last.index) * last.counter + last.util`. -/
def calcCurrentUtil (index : Int) (prior : Option Event) : ℚ :=
  match prior with
  | none => ((index : ℚ) - (zeroEvent.index : ℚ)) * (zeroEvent.counter : ℚ) + zeroEvent.util
  | some last => ((index : ℚ) - (last.index : ℚ)) * (last.counter : ℚ) + last.util

/-- The fold loop of `loadSUL` over one location's event list: `counter` is
the running total so far, `prev` the previously folded event (`none` at the
first event).  Each event's `counter` field is overwritten with the running
total and its `util` field with `calcCurrentUtil` of the (already folded)
previous event — exactly the `for i, criticalPt in enumerate(...)` loop. -/
def foldLoc (counter : Int) (prev : Option Event) : List Event → List Event
  | [] => []
  | ev :: rest =>
    let c := counter + ev.counter
    let folded : Event := { index := ev.index, counter := c, util := calcCurrentUtil ev.index prev }
    folded :: foldLoc c (some folded) rest

/-- The fold of `loadSUL` started from a zero running counter and no prior
event. -/
def loadFold (evs : List Event) : List Event := foldLoc 0 none evs

/-- The event preceding position `i` of a folded sequence, with the synthetic
zero state standing in before the first event (`util[-1] = 0`,
`counter[-1] = 0`, `index[-1] = 0`). -/
def prevAt (l : List Event) (i : Nat) : Event :=
  if i = 0 then zeroEvent else l.getD (i - 1) zeroEvent

/-- Python `int(...)` applied to an exact quotient: truncation toward zero
(the same cast the source performs when storing a critical point into the
`long long` arrays). -/
def pyTrunc (q : ℚ) : Int := if q < 0 then ⌈q⌉ else ⌊q⌋

/-- The critical points of `calcUtilizationForLocation`:
`critical[i] = int(i * rangePerBin + begin)` for `i in range(bins)` with
`rangePerBin = (end - begin) / bins`, and the last entry forced to `end`. -/
def criticalPoints (bins : Nat) (b e : Int) : List Int :=
  (List.range bins).map
    (fun (i : Nat) => pyTrunc ((i : ℚ) * (((e : ℚ) - (b : ℚ)) / (bins : ℚ)) + (b : ℚ))) ++ [e]

/-- Modelled from the spec: the native kernel `lib.calcHistogram` (package
`profiling_tools._cCalcBin`, not part of this repository's sources) evaluates
the finalized step function at one index `c`: it finds the last event whose
`index <= c` (or the synthetic zero state if none) and returns
`lastEvent.util + (c - lastEvent.index) * lastEvent.counter`. -/
def stepValueAt (events : List Event) (c : Int) : ℚ :=
  match (events.filter (fun ev => ev.index ≤ c)).getLast? with
  | none => zeroEvent.util + ((c : ℚ) - (zeroEvent.index : ℚ)) * (zeroEvent.counter : ℚ)
  | some ev => ev.util + ((c : ℚ) - (ev.index : ℚ)) * (ev.counter : ℚ)

/-- The output loop of `calcUtilizationForLocation`: starting from the first
critical pair `prev = (index, util)`, each later pair appends `util` in raw
mode, or `(util - prevUtil) / (index - prevIndex)` in rate (interval) mode —
raising `ZeroDivisionError` when consecutive indices coincide. -/
def binLoop (isInterval : Bool) : (Int × ℚ) → List (Int × ℚ) → Except PyError (List ℚ)
  | _, [] => .ok []
  | prev, cur :: rest =>
    if isInterval then
      if cur.1 - prev.1 = 0 then .error .zeroDivisionError
      else
        match binLoop isInterval cur rest with
        | .error err => .error err
        | .ok l => .ok (((cur.2 - prev.2) / ((cur.1 : ℚ) - (prev.1 : ℚ))) :: l)
    else
      match binLoop isInterval cur rest with
      | .error err => .error err
      | .ok l => .ok (cur.2 :: l)

/-- `SparseUtilizationList.calcUtilizationForLocation`.  `bins = 0` raises
`ZeroDivisionError` computing `rangePerBin`; `bins <= -2` raises `ValueError`
allocating `np.empty(bins + 1)`; `bins = -1` raises `IndexError` writing
`criticalPts[-1]` on an empty array.  Otherwise the critical points are
computed, the location is looked up (raising `KeyError` if absent), the
native kernel evaluates the step function at every critical point (the
kernel writes `histogram_index[i] = critical[i]` and `histogram_util[i]` the
step value — modelled from the spec, see `stepValueAt`), and the output loop
produces one value per critical point after the first. -/
def calcUtilizationForLocation (sul : SUL) (bins : Int) (b e : Int) (location : Nat)
    (isInterval : Bool) : Except PyError (List ℚ) :=
  if bins = 0 then .error .zeroDivisionError
  else if bins + 1 < 0 then .error .valueError
  else if bins < 0 then .error .indexError
  else
    let cps := criticalPoints bins.toNat b e
    match sul.locationDict.lookup location with
    | none => .error .keyError
    | some _ =>
      match sul.cLocationDict.lookup location with
      | none => .error .keyError
      | some cloc =>
        match cps.map (fun c => (c, stepValueAt cloc c)) with
        | [] => .error .indexError
        | p :: rest => binLoop isInterval p rest

/-- `calcUtilizationForLocation` with the store threaded explicitly: the
method writes only to arrays local to the call (the histogram buffers), never
to `locationDict` or `cLocationDict`, and the native kernel reads but does
not write the location arrays (its read-only contract — modelled from the
spec), so the store comes back unchanged. -/
def calcUtilizationForLocationS (sul : SUL) (bins : Int) (b e : Int) (location : Nat)
    (isInterval : Bool) : Except PyError (List ℚ) × SUL :=
  (calcUtilizationForLocation sul bins b e location isInterval, sul)

/-- The inner summation loop `for i in range(bins): array[i] = array[i] + temp[i]`
of `calcUtilizationHistogram`: entries `0 .. bins-1` of `array` receive
`array[i] + temp[i]`, later entries are untouched; reading past the end of
either list raises `IndexError`.  When `array` and `temp` are the same
object (the first iteration of the outer loop) this doubles each entry. -/
def addInto (array temp : List ℚ) (bins : Nat) : Except PyError (List ℚ) :=
  if bins ≤ array.length ∧ bins ≤ temp.length then
    .ok (List.zipWith (· + ·) (array.take bins) (temp.take bins) ++ array.drop bins)
  else .error .indexError

/-- The outer loop of `calcUtilizationHistogram` over the stored locations:
on the first location the accumulator is bound to the freshly computed
histogram itself (`array = temp`) and the summation loop then adds it to
itself; on later locations the summation loop adds into the accumulator. -/
def sulLoop (sul : SUL) (bins : Int) (b e : Int) (isInterval : Bool) :
    List Nat → Bool → List ℚ → Except PyError (List ℚ)
  | [], _, array => .ok array
  | loc :: rest, isFirst, array =>
    match calcUtilizationForLocation sul bins b e loc isInterval with
    | .error err => .error err
    | .ok temp =>
      match addInto (if isFirst then temp else array) temp bins.toNat with
      | .error err => .error err
      | .ok array2 => sulLoop sul bins b e isInterval rest false array2

/-- `SparseUtilizationList.calcUtilizationHistogram`: iterates the locations
in insertion order, starting from `array = []` and `isFirst = True`. -/
def calcUtilizationHistogram (sul : SUL) (bins : Int) (b e : Int)
    (isInterval : Bool) : Except PyError (List ℚ) :=
  sulLoop sul bins b e isInterval (sul.locationDict.map Prod.fst) true []

/-- The last-seen sample state `preMetricValue[k]` of `loadSUL`. -/
structure MetricLast where
  tstamp : Int
  value : ℚ
deriving DecidableEq, Repr

/-- The metric branch of `updateSULForInterval` in `loadSUL`, for one metric
whose last-seen state is `pre`, on an interval with entry timestamp
`enterTs`, exit timestamp `leaveTs` and sample value `value`: computes the
entry rate `(value - pre.value) / (enterTs - pre.tstamp)`, emits the entry
event, overwrites `pre` with `(enterTs, value)`, then computes the exit rate
with the overwritten state, emits the exit event and overwrites `pre` with
`(leaveTs, value)`.  A zero denominator raises `ZeroDivisionError`. -/
def updateSULForIntervalMetric (pre : MetricLast) (value : ℚ) (enterTs leaveTs : Int) :
    Except PyError (Event × Event × MetricLast) :=
  if enterTs - pre.tstamp = 0 then .error .zeroDivisionError
  else
    let rate1 : ℚ := (value - pre.value) / ((enterTs : ℚ) - (pre.tstamp : ℚ))
    let pre1 : MetricLast := { tstamp := enterTs, value := value }
    if leaveTs - pre1.tstamp = 0 then .error .zeroDivisionError
    else
      let rate2 : ℚ := (value - pre1.value) / ((leaveTs : ℚ) - (pre1.tstamp : ℚ))
      .ok ({ index := enterTs, counter := 0, util := rate1 },
           { index := leaveTs, counter := 0, util := rate2 },
           { tstamp := leaveTs, value := value })

/-- Decides whether an event list is sorted by `index` ascending. -/
def indexSorted : List Event → Bool
  | [] => true
  | [_] => true
  | a :: b :: rest => (a.index ≤ b.index) && indexSorted (b :: rest)

/-- Finalized events of a location whose rate-mode histogram over `[0,30)`
with three bins is `[1, 2, 3]` (running counters 1, 2, 3 on the three
sub-ranges, utilization integrals 0, 10, 30). -/
def evLoc0 : List Event :=
  [{ index := 0, counter := 1, util := 0 },
   { index := 10, counter := 2, util := 10 },
   { index := 20, counter := 3, util := 30 }]

/-- Finalized events of a location whose rate-mode histogram over `[0,30)`
with three bins is `[4, 5, 6]`. -/
def evLoc1 : List Event :=
  [{ index := 0, counter := 4, util := 0 },
   { index := 10, counter := 5, util := 40 },
   { index := 20, counter := 6, util := 90 }]

/-- A store with two locations whose rate-mode histograms over `[0,30)` with
three bins are `[1, 2, 3]` and `[4, 5, 6]`. -/
def exTwoLoc : SUL :=
  { locationDict := [(0, evLoc0), (1, evLoc1)],
    cLocationDict := [(0, evLoc0), (1, evLoc1)] }

/-- A store with a single location holding one finalized event. -/
def exOneLoc : SUL :=
  { locationDict := [(0, [{ index := 0, counter := 1, util := 0 }])],
    cLocationDict := [(0, [{ index := 0, counter := 1, util := 0 }])] }

/-- A store whose location 0 holds two events out of index order. -/
def exUnsorted : SUL :=
  { locationDict := [(0, [{ index := 2, counter := 1, util := 0 },
                          { index := 1, counter := 1, util := 0 }])],
    cLocationDict := [] }

example : pyTrunc (10 / 3 : ℚ) = 3 := by norm_num [pyTrunc]
example : pyTrunc (-1 / 2 : ℚ) = 0 := by norm_num [pyTrunc]
example : criticalPoints 3 0 30 = [0, 10, 20, 30] := by
  norm_num [criticalPoints, pyTrunc, List.range_succ]
example : criticalPoints 2 0 1 = [0, 0, 1] := by
  norm_num [criticalPoints, pyTrunc, List.range_succ]

theorem foldLoc_length (c : Int) (p : Option Event) (evs : List Event) :
    (foldLoc c p evs).length = evs.length := by
  induction evs generalizing c p with
  | nil => rfl
  | cons ev rest ih => simp [foldLoc, ih]

theorem foldLoc_getD (evs : List Event) (c : Int) (p : Option Event) (i : Nat)
    (h : i < evs.length) :
    ((foldLoc c p evs).getD i zeroEvent).index = (evs.getD i zeroEvent).index ∧
    ((foldLoc c p evs).getD i zeroEvent).counter
      = c + ((evs.take (i + 1)).map Event.counter).sum ∧
    ((foldLoc c p evs).getD i zeroEvent).util
      = calcCurrentUtil ((evs.getD i zeroEvent).index)
          (if i = 0 then p else some ((foldLoc c p evs).getD (i - 1) zeroEvent)) := by
  induction evs generalizing c p i with
  | nil => exact absurd h (by simp)
  | cons ev rest ih =>
    cases i with
    | zero =>
      refine ⟨rfl, by simp [foldLoc], by simp [foldLoc]⟩
    | succ j =>
      have hj : j < rest.length := by simpa using h
      obtain ⟨ih1, ih2, ih3⟩ := ih (c + ev.counter)
        (some { index := ev.index, counter := c + ev.counter,
                util := calcCurrentUtil ev.index p }) j hj
      refine ⟨?_, ?_, ?_⟩
      · simpa [foldLoc] using ih1
      · simp only [foldLoc, List.getD_cons_succ, List.take_succ_cons, List.map_cons,
          List.sum_cons]
        rw [ih2]
        ring
      · cases j with
        | zero => simpa [foldLoc] using ih3
        | succ k => simpa [foldLoc] using ih3

/-- C4: after the build of a location's interval step function completes,
every event `i` of the finalized sequence has `counter` equal to the prefix
sum of the raw deltas up to and including `i`, and
`util[i] = util[i-1] + (index[i] - index[i-1]) * counter[i-1]`, with
`util[-1] = 0, counter[-1] = 0, index[-1] = 0` for the first event. -/
theorem loadFold_invariants (evs : List Event) (i : Nat)
    (h : i < (loadFold evs).length) :
    (loadFold evs).length = evs.length ∧
    ((loadFold evs).getD i zeroEvent).counter
      = ((evs.take (i + 1)).map Event.counter).sum ∧
    ((loadFold evs).getD i zeroEvent).util
      = (prevAt (loadFold evs) i).util
        + ((((loadFold evs).getD i zeroEvent).index : ℚ)
            - ((prevAt (loadFold evs) i).index : ℚ))
          * ((prevAt (loadFold evs) i).counter : ℚ) := by
  simp only [loadFold] at h ⊢
  have hlen := foldLoc_length 0 none evs
  have h' : i < evs.length := hlen ▸ h
  obtain ⟨h1, h2, h3⟩ := foldLoc_getD evs 0 none i h'
  refine ⟨hlen, by simpa using h2, ?_⟩
  rw [h3]
  by_cases hi : i = 0
  · subst hi
    simp only [prevAt, if_pos rfl, calcCurrentUtil, zeroEvent]
    push_cast
    ring
  · simp only [prevAt, if_neg hi, calcCurrentUtil, loadFold]
    rw [h1]
    ring

/-- Two raw interval edge events, used to instantiate `loadFold_invariants`. -/
def exFoldEvs : List Event :=
  [{ index := 0, counter := 1, util := 0 },
   { index := 10, counter := -1, util := 0 }]

/-- Witness for `loadFold_invariants` at a concrete two-event sequence. -/
theorem loadFold_invariants_holds :
    1 < (loadFold exFoldEvs).length ∧
    ((loadFold exFoldEvs).length = exFoldEvs.length ∧
     ((loadFold exFoldEvs).getD 1 zeroEvent).counter
       = ((exFoldEvs.take (1 + 1)).map Event.counter).sum ∧
     ((loadFold exFoldEvs).getD 1 zeroEvent).util
       = (prevAt (loadFold exFoldEvs) 1).util
         + ((((loadFold exFoldEvs).getD 1 zeroEvent).index : ℚ)
             - ((prevAt (loadFold exFoldEvs) 1).index : ℚ))
           * ((prevAt (loadFold exFoldEvs) 1).counter : ℚ)) :=
  ⟨by simp [loadFold, foldLoc, exFoldEvs],
   loadFold_invariants exFoldEvs 1 (by simp [loadFold, foldLoc, exFoldEvs])⟩

theorem criticalPoints_length (bins : Nat) (b e : Int) :
    (criticalPoints bins b e).length = bins + 1 := by
  rw [criticalPoints, List.length_append, List.length_map, List.length_range]
  rfl

theorem criticalPoints_getD_lt (bins : Nat) (b e : Int) (i : Nat) (h : i < bins) :
    (criticalPoints bins b e).getD i 0
      = pyTrunc ((i : ℚ) * (((e : ℚ) - (b : ℚ)) / (bins : ℚ)) + (b : ℚ)) := by
  rw [criticalPoints,
    List.getD_append _ _ _ _ (by rw [List.length_map, List.length_range]; exact h),
    List.getD_eq_getElem?_getD, List.getElem?_map, List.getElem?_range h]
  rfl

theorem criticalPoints_getD_last (bins : Nat) (b e : Int) :
    (criticalPoints bins b e).getD bins 0 = e := by
  rw [criticalPoints,
    List.getD_append_right _ _ _ _ (by rw [List.length_map, List.length_range])]
  rw [List.length_map, List.length_range, Nat.sub_self, List.getD_cons_zero]

theorem binLoop_raw (prev : Int × ℚ) (ps : List (Int × ℚ)) :
    binLoop false prev ps = .ok (ps.map Prod.snd) := by
  induction ps generalizing prev with
  | nil => rfl
  | cons q qs ih => simp [binLoop, ih q]

theorem binLoop_rate (prev : Int × ℚ) (ps : List (Int × ℚ))
    (h : List.Chain (fun a b => a.1 ≠ b.1) prev ps) :
    binLoop true prev ps
      = .ok (List.zipWith (fun a b => (b.2 - a.2) / ((b.1 : ℚ) - (a.1 : ℚ)))
          (prev :: ps) ps) := by
  induction ps generalizing prev with
  | nil => rfl
  | cons q qs ih =>
    rw [List.chain_cons] at h
    have hne : ¬(q.1 - prev.1 = 0) := fun h0 => h.1 (by omega)
    simp [binLoop, hne, ih q h.2]

theorem binLoop_raw_ok (prev : Int × ℚ) (ps : List (Int × ℚ)) (out : List ℚ)
    (h : binLoop false prev ps = .ok out) : out = ps.map Prod.snd := by
  rw [binLoop_raw prev ps] at h
  exact (Except.ok.inj h).symm

theorem binLoop_rate_ok (prev : Int × ℚ) (ps : List (Int × ℚ)) (out : List ℚ)
    (h : binLoop true prev ps = .ok out) :
    out = List.zipWith (fun a b => (b.2 - a.2) / ((b.1 : ℚ) - (a.1 : ℚ)))
            (prev :: ps) ps := by
  induction ps generalizing prev out with
  | nil =>
    simp only [binLoop] at h
    simpa using (Except.ok.inj h).symm
  | cons q qs ih =>
    by_cases hz : q.1 - prev.1 = 0
    · simp [binLoop, hz] at h
    · rcases hr : binLoop true q qs with err | l
      · simp [binLoop, hz, hr] at h
      · simp only [binLoop, if_pos rfl, if_neg hz, hr] at h
        obtain rfl := (Except.ok.inj h).symm
        rw [ih q l hr]
        rfl

theorem calc_unfold (sul : SUL) (bins : Nat) (b e : Int) (loc : Nat) (l cl : List Event)
    (m : Bool) (hb : 1 ≤ bins) (hl : sul.locationDict.lookup loc = some l)
    (hc : sul.cLocationDict.lookup loc = some cl) :
    calcUtilizationForLocation sul (bins : Int) b e loc m
      = binLoop m
          (((criticalPoints bins b e).map (fun c => (c, stepValueAt cl c))).headD (0, 0))
          (((criticalPoints bins b e).map (fun c => (c, stepValueAt cl c))).tail) := by
  have h0 : ¬((bins : Int) = 0) := by omega
  have h1 : ¬((bins : Int) + 1 < 0) := by omega
  have h2 : ¬((bins : Int) < 0) := by omega
  rw [calcUtilizationForLocation, if_neg h0, if_neg h1, if_neg h2]
  simp only [Int.toNat_natCast, hl, hc]
  rcases hx : (criticalPoints bins b e).map (fun c => (c, stepValueAt cl c)) with _ | ⟨p, rest⟩
  · exfalso
    have := congrArg List.length hx
    rw [List.length_map, criticalPoints_length] at this
    simp at this
  · rfl

theorem zipWith_tail_eq_rangeMap (xs : List (Int × ℚ)) (n : Nat) (hn : xs.length = n + 1)
    (f : (Int × ℚ) → (Int × ℚ) → ℚ) :
    List.zipWith f xs xs.tail
      = (List.range n).map (fun j => f (xs.getD j (0, 0)) (xs.getD (j + 1) (0, 0))) := by
  apply List.ext_getElem
  · rw [List.length_zipWith, List.length_tail, hn, List.length_map, List.length_range]
    omega
  · intro i h1 h2
    have hi : i < n := by
      rw [List.length_zipWith, List.length_tail, hn] at h1
      omega
    rw [List.getElem_zipWith, List.getElem_map, List.getElem_range, List.getElem_tail,
      List.getD_eq_getElem _ _ (by omega), List.getD_eq_getElem _ _ (by omega)]

theorem pairs_getD_eq (bins : Nat) (b e : Int) (cl : List Event) (j : Nat)
    (hj : j < bins + 1) :
    ((criticalPoints bins b e).map (fun c => (c, stepValueAt cl c))).getD j (0, 0)
      = ((criticalPoints bins b e).getD j 0,
         stepValueAt cl ((criticalPoints bins b e).getD j 0)) := by
  rw [List.getD_eq_getElem _ _ (by rw [List.length_map, criticalPoints_length]; omega),
    List.getElem_map, List.getD_eq_getElem _ _ (by rw [criticalPoints_length]; omega)]

theorem calc_rate_eq (sul : SUL) (bins : Nat) (b e : Int) (loc : Nat) (l cl : List Event)
    (hb : 1 ≤ bins) (hl : sul.locationDict.lookup loc = some l)
    (hc : sul.cLocationDict.lookup loc = some cl)
    (hd : (criticalPoints bins b e).Chain' (fun x y => x ≠ y)) :
    calcUtilizationForLocation sul (bins : Int) b e loc true
      = .ok ((List.range bins).map (fun j =>
          (stepValueAt cl ((criticalPoints bins b e).getD (j + 1) 0)
            - stepValueAt cl ((criticalPoints bins b e).getD j 0))
          / (((criticalPoints bins b e).getD (j + 1) 0 : ℚ)
              - ((criticalPoints bins b e).getD j 0 : ℚ)))) := by
  rw [calc_unfold sul bins b e loc l cl true hb hl hc]
  set pairs := (criticalPoints bins b e).map (fun c => (c, stepValueAt cl c)) with hp
  have hlen : pairs.length = bins + 1 := by rw [hp, List.length_map, criticalPoints_length]
  have hcons : pairs.headD (0, 0) :: pairs.tail = pairs := by
    rcases hq : pairs with _ | ⟨p, rest⟩
    · rw [hq] at hlen; simp at hlen
    · rfl
  have hchain2 : List.Chain' (fun a b : Int × ℚ => a.1 ≠ b.1) pairs := by
    rw [hp, List.chain'_map]
    exact hd
  have hchain : List.Chain (fun a b : Int × ℚ => a.1 ≠ b.1) (pairs.headD (0, 0)) pairs.tail := by
    rw [← hcons] at hchain2
    exact hchain2
  rw [binLoop_rate _ _ hchain, hcons]
  congr 1
  rw [zipWith_tail_eq_rangeMap pairs bins hlen]
  apply List.map_congr_left
  intro j hj
  rw [List.mem_range] at hj
  rw [pairs_getD_eq bins b e cl j (by omega), pairs_getD_eq bins b e cl (j + 1) (by omega)]

theorem calc_raw_eq (sul : SUL) (bins : Nat) (b e : Int) (loc : Nat) (l cl : List Event)
    (hb : 1 ≤ bins) (hl : sul.locationDict.lookup loc = some l)
    (hc : sul.cLocationDict.lookup loc = some cl) :
    calcUtilizationForLocation sul (bins : Int) b e loc false
      = .ok ((List.range bins).map (fun j =>
          stepValueAt cl ((criticalPoints bins b e).getD (j + 1) 0))) := by
  rw [calc_unfold sul bins b e loc l cl false hb hl hc, binLoop_raw]
  congr 1
  set pairs := (criticalPoints bins b e).map (fun c => (c, stepValueAt cl c)) with hp
  have hlen : pairs.length = bins + 1 := by rw [hp, List.length_map, criticalPoints_length]
  apply List.ext_getElem
  · rw [List.length_map, List.length_tail, hlen, List.length_map, List.length_range]
    omega
  · intro i h1 h2
    have hi : i < bins := by
      rw [List.length_map, List.length_tail, hlen] at h1
      omega
    simp only [hp, List.getElem_map, List.getElem_tail, List.getElem_range]
    rw [List.getD_eq_getElem _ _ (by rw [criticalPoints_length]; omega)]

theorem calc_rate_ok (sul : SUL) (bins : Nat) (b e : Int) (loc : Nat) (l cl : List Event)
    (out : List ℚ) (hb : 1 ≤ bins) (hl : sul.locationDict.lookup loc = some l)
    (hc : sul.cLocationDict.lookup loc = some cl)
    (h : calcUtilizationForLocation sul (bins : Int) b e loc true = .ok out) :
    out = (List.range bins).map (fun j =>
        (stepValueAt cl ((criticalPoints bins b e).getD (j + 1) 0)
          - stepValueAt cl ((criticalPoints bins b e).getD j 0))
        / (((criticalPoints bins b e).getD (j + 1) 0 : ℚ)
            - ((criticalPoints bins b e).getD j 0 : ℚ))) := by
  rw [calc_unfold sul bins b e loc l cl true hb hl hc] at h
  set pairs := (criticalPoints bins b e).map (fun c => (c, stepValueAt cl c)) with hp
  have hlen : pairs.length = bins + 1 := by rw [hp, List.length_map, criticalPoints_length]
  have hcons : pairs.headD (0, 0) :: pairs.tail = pairs := by
    rcases hq : pairs with _ | ⟨p, rest⟩
    · rw [hq] at hlen; simp at hlen
    · rfl
  have hout := binLoop_rate_ok _ _ _ h
  rw [hcons, zipWith_tail_eq_rangeMap pairs bins hlen] at hout
  rw [hout]
  apply List.map_congr_left
  intro j hj
  rw [List.mem_range] at hj
  rw [pairs_getD_eq bins b e cl j (by omega), pairs_getD_eq bins b e cl (j + 1) (by omega)]

theorem calc_raw_ok (sul : SUL) (bins : Nat) (b e : Int) (loc : Nat) (l cl : List Event)
    (out : List ℚ) (hb : 1 ≤ bins) (hl : sul.locationDict.lookup loc = some l)
    (hc : sul.cLocationDict.lookup loc = some cl)
    (h : calcUtilizationForLocation sul (bins : Int) b e loc false = .ok out) :
    out = (List.range bins).map (fun j =>
        stepValueAt cl ((criticalPoints bins b e).getD (j + 1) 0)) := by
  rw [calc_raw_eq sul bins b e loc l cl hb hl hc] at h
  exact (Except.ok.inj h).symm

/-- C5: whenever the resampler returns a histogram, output bin `i - 1` (for
each critical point `i >= 1`) equals
`(value[i] - value[i-1]) / (critical[i] - critical[i-1])` in rate mode and
`value[i]` in raw-cumulative mode, where `value[i]` is the step-function
value at critical point `i`; the value at critical point `0` is never itself
emitted (the output has exactly `bins` entries, indexed by `i - 1`). -/
theorem calcUtilizationForLocation_bin_formula (sul : SUL) (bins : Nat) (b e : Int)
    (loc : Nat) (l cl : List Event) (hb : 1 ≤ bins)
    (hl : sul.locationDict.lookup loc = some l)
    (hc : sul.cLocationDict.lookup loc = some cl) :
    (∀ out, calcUtilizationForLocation sul (bins : Int) b e loc true = .ok out →
       out.length = bins ∧
       ∀ i, 1 ≤ i → i ≤ bins →
         out.getD (i - 1) 0
           = (stepValueAt cl ((criticalPoints bins b e).getD i 0)
               - stepValueAt cl ((criticalPoints bins b e).getD (i - 1) 0))
             / (((criticalPoints bins b e).getD i 0 : ℚ)
                 - ((criticalPoints bins b e).getD (i - 1) 0 : ℚ))) ∧
    (∀ out, calcUtilizationForLocation sul (bins : Int) b e loc false = .ok out →
       out.length = bins ∧
       ∀ i, 1 ≤ i → i ≤ bins →
         out.getD (i - 1) 0 = stepValueAt cl ((criticalPoints bins b e).getD i 0)) := by
  constructor
  · intro out h
    have hout := calc_rate_ok sul bins b e loc l cl out hb hl hc h
    refine ⟨by rw [hout, List.length_map, List.length_range], ?_⟩
    intro i h1i h2i
    rw [hout, List.getD_eq_getElem _ _ (by rw [List.length_map, List.length_range]; omega),
      List.getElem_map, List.getElem_range]
    have hii : i - 1 + 1 = i := by omega
    rw [hii]
  · intro out h
    have hout := calc_raw_ok sul bins b e loc l cl out hb hl hc h
    refine ⟨by rw [hout, List.length_map, List.length_range], ?_⟩
    intro i h1i h2i
    rw [hout, List.getD_eq_getElem _ _ (by rw [List.length_map, List.length_range]; omega),
      List.getElem_map, List.getElem_range]
    have hii : i - 1 + 1 = i := by omega
    rw [hii]

theorem cps3_eq : criticalPoints 3 0 30 = [0, 10, 20, 30] := by
  norm_num [criticalPoints, pyTrunc, List.range_succ]

theorem cps3_chain : (criticalPoints 3 0 30).Chain' (fun x y => x ≠ y) := by
  rw [cps3_eq]
  simp [List.chain'_cons]

theorem exTwoLoc_loc0_rate :
    calcUtilizationForLocation exTwoLoc 3 0 30 0 true = .ok [1, 2, 3] := by
  rw [show (3 : Int) = ((3 : Nat) : Int) from rfl,
    calc_rate_eq exTwoLoc 3 0 30 0 evLoc0 evLoc0 (by omega) rfl rfl cps3_chain, cps3_eq]
  congr 1
  norm_num [List.range_succ, stepValueAt, evLoc0]

theorem exTwoLoc_loc1_rate :
    calcUtilizationForLocation exTwoLoc 3 0 30 1 true = .ok [4, 5, 6] := by
  rw [show (3 : Int) = ((3 : Nat) : Int) from rfl,
    calc_rate_eq exTwoLoc 3 0 30 1 evLoc1 evLoc1 (by omega) rfl rfl cps3_chain, cps3_eq]
  congr 1
  norm_num [List.range_succ, stepValueAt, evLoc1]

theorem addInto_first : addInto [(1 : ℚ), 2, 3] [1, 2, 3] 3 = .ok [2, 4, 6] := by
  have h : addInto [(1 : ℚ), 2, 3] [1, 2, 3] 3 = .ok [1 + 1, 2 + 2, 3 + 3] := rfl
  rw [h]
  norm_num

theorem addInto_second : addInto [(2 : ℚ), 4, 6] [4, 5, 6] 3 = .ok [6, 9, 12] := by
  have h : addInto [(2 : ℚ), 4, 6] [4, 5, 6] 3 = .ok [2 + 4, 4 + 5, 6 + 6] := rfl
  rw [h]
  norm_num

/-- C2 (code bug): on a store whose two locations have rate-mode histograms
`[1, 2, 3]` and `[4, 5, 6]`, `calcUtilizationHistogram` returns `[6, 9, 12]`,
not the elementwise sum `[5, 7, 9]`: the first location's histogram is bound
to the accumulator (`array = temp`) and the summation loop — which runs even
on the first iteration, there being no `else` — then adds it to itself. -/
theorem calcUtilizationHistogram_doubles_first_location :
    calcUtilizationHistogram exTwoLoc 3 0 30 true = .ok [6, 9, 12] ∧
    calcUtilizationHistogram exTwoLoc 3 0 30 true ≠ .ok [5, 7, 9] := by
  have hmain : calcUtilizationHistogram exTwoLoc 3 0 30 true = .ok [6, 9, 12] := by
    rw [calcUtilizationHistogram,
      show exTwoLoc.locationDict.map Prod.fst = [0, 1] from rfl]
    simp only [sulLoop, exTwoLoc_loc0_rate, exTwoLoc_loc1_rate,
      show (3 : Int).toNat = 3 from rfl, if_true, if_false, Bool.false_eq_true,
      addInto_first, addInto_second]
  refine ⟨hmain, ?_⟩
  rw [hmain]
  norm_num

/-- Witness for C5 at a concrete store: location 0 of `exTwoLoc` with three
bins over `[0,30)` yields `[1, 2, 3]`, whose bin `0` matches the rate
formula at critical point `1`. -/
theorem calcUtilizationForLocation_bin_formula_holds :
    1 ≤ 3 ∧
    (([1, 2, 3] : List ℚ).length = 3 ∧
     ([1, 2, 3] : List ℚ).getD (1 - 1) 0
       = (stepValueAt evLoc0 ((criticalPoints 3 0 30).getD 1 0)
           - stepValueAt evLoc0 ((criticalPoints 3 0 30).getD (1 - 1) 0))
         / (((criticalPoints 3 0 30).getD 1 0 : ℚ)
             - ((criticalPoints 3 0 30).getD (1 - 1) 0 : ℚ))) := by
  have main := calcUtilizationForLocation_bin_formula exTwoLoc 3 0 30 0 evLoc0 evLoc0
    (by omega) rfl rfl
  have h0 := main.1 [1, 2, 3]
    (by rw [show ((3 : Nat) : Int) = (3 : Int) from rfl]; exact exTwoLoc_loc0_rate)
  exact ⟨by omega, h0.1, h0.2 1 (by omega) (by omega)⟩

theorem cps201_eq : criticalPoints 2 0 1 = [0, 0, 1] := by
  norm_num [criticalPoints, pyTrunc, List.range_succ]

/-- C6 counterexample: for the valid window `[0, 1)` with `bins = 2` and a
location present in the store, the rate-mode resampler raises
`ZeroDivisionError` (two consecutive truncated critical points coincide at
`0`), so no 2-element histogram is returned. -/
theorem calc_valid_window_zero_division :
    calcUtilizationForLocation exOneLoc 2 0 1 0 true = .error .zeroDivisionError := by
  rw [show (2 : Int) = ((2 : Nat) : Int) from rfl,
    calc_unfold exOneLoc 2 0 1 0 [{ index := 0, counter := 1, util := 0 }]
      [{ index := 0, counter := 1, util := 0 }] true (by omega) rfl rfl, cps201_eq]
  norm_num [binLoop]

/-- C6 (amended): for `bins = N >= 1`, a location present in the store, and a
window whose `N + 1` truncated critical points are pairwise distinct
consecutively (which a valid window `end > begin` does not guarantee: see the
counterexample), the rate-mode resampler returns exactly `N` elements. -/
theorem calcUtilizationForLocation_bin_count (sul : SUL) (bins : Nat) (b e : Int)
    (loc : Nat) (l cl : List Event) (hb : 1 ≤ bins)
    (hl : sul.locationDict.lookup loc = some l)
    (hc : sul.cLocationDict.lookup loc = some cl)
    (hd : (criticalPoints bins b e).Chain' (fun x y => x ≠ y)) :
    ∃ out, calcUtilizationForLocation sul (bins : Int) b e loc true = .ok out ∧
      out.length = bins :=
  ⟨_, calc_rate_eq sul bins b e loc l cl hb hl hc hd,
   by rw [List.length_map, List.length_range]⟩

/-- Witness for the amended C6 at a concrete store. -/
theorem calcUtilizationForLocation_bin_count_holds :
    1 ≤ 3 ∧ ∃ out, calcUtilizationForLocation exTwoLoc 3 0 30 0 true = .ok out ∧
      out.length = 3 :=
  ⟨by omega, by
    rw [show (3 : Int) = ((3 : Nat) : Int) from rfl]
    exact calcUtilizationForLocation_bin_count exTwoLoc 3 0 30 0 evLoc0 evLoc0
      (by omega) rfl rfl cps3_chain⟩

/-- C7 counterexample: with `begin = 0`, `end = 10`, `bins = 3`, the stored
critical point `critical[1]` is `3`, not `begin + 1 * rangePerBin = 10/3`:
the source truncates each critical point to an integer. -/
theorem criticalPoints_formula_fails :
    (((criticalPoints 3 0 10).getD 1 0 : Int) : ℚ)
      ≠ (0 : ℚ) + (1 : ℚ) * (((10 : ℚ) - (0 : ℚ)) / (3 : ℚ)) := by
  have h : criticalPoints 3 0 10 = [0, 3, 6, 10] := by
    norm_num [criticalPoints, pyTrunc, List.range_succ]
  rw [h, show ([0, 3, 6, 10] : List Int).getD 1 0 = 3 from rfl]
  norm_num

/-- C7 (amended): the resampler generates exactly `bins + 1` critical-point
indices; `critical[i]` for `i < bins` is the toward-zero truncation of
`begin + i * ((end - begin) / bins)` (not that exact rational value), and
`critical[bins] = end` exactly. -/
theorem criticalPoints_spec (bins : Nat) (b e : Int) (_hb : 1 ≤ bins) :
    (criticalPoints bins b e).length = bins + 1 ∧
    (∀ i, i < bins →
      (criticalPoints bins b e).getD i 0
        = pyTrunc ((i : ℚ) * (((e : ℚ) - (b : ℚ)) / (bins : ℚ)) + (b : ℚ))) ∧
    (criticalPoints bins b e).getD bins 0 = e :=
  ⟨criticalPoints_length bins b e,
   fun i hi => criticalPoints_getD_lt bins b e i hi,
   criticalPoints_getD_last bins b e⟩

/-- Witness for the amended C7 at `bins = 2`, window `[0, 10)`. -/
theorem criticalPoints_spec_holds :
    1 ≤ 2 ∧
    ((criticalPoints 2 0 10).length = 2 + 1 ∧
     (criticalPoints 2 0 10).getD 1 0
       = pyTrunc ((1 : ℚ) * (((10 : ℚ) - (0 : ℚ)) / (2 : ℚ)) + (0 : ℚ)) ∧
     (criticalPoints 2 0 10).getD 2 0 = 10) :=
  ⟨by omega,
   (criticalPoints_spec 2 0 10 (by omega)).1,
   (criticalPoints_spec 2 0 10 (by omega)).2.1 1 (by omega),
   (criticalPoints_spec 2 0 10 (by omega)).2.2⟩

/-- C8 counterexample: with `bins = 0` the source raises `ZeroDivisionError`
(computing `rangePerBin = (end - begin) / bins`), which is not an
invalid-argument error: there is no argument validation in the source. -/
theorem calc_zero_bins_not_invalid_argument :
    calcUtilizationForLocation exOneLoc 0 0 10 0 true = .error .zeroDivisionError ∧
    (Except.error PyError.zeroDivisionError : Except PyError (List ℚ))
      ≠ .error .invalidArgument := by
  refine ⟨rfl, ?_⟩
  intro h
  exact absurd (Except.error.inj h) (by intro h2; cases h2)

/-- C8 (amended): for every store, window and location, calling the
resampler with `bins <= 0` raises an exception rather than returning a
histogram — `ZeroDivisionError` for `bins = 0`, `IndexError` for
`bins = -1`, `ValueError` for `bins <= -2` — none of which is an explicit
invalid-argument check. -/
theorem calc_nonpositive_bins_error (sul : SUL) (bins b e : Int) (loc : Nat)
    (m : Bool) (h : bins ≤ 0) :
    ∃ err, calcUtilizationForLocation sul bins b e loc m = .error err := by
  by_cases h0 : bins = 0
  · exact ⟨.zeroDivisionError, by rw [calcUtilizationForLocation, if_pos h0]⟩
  · by_cases h1 : bins + 1 < 0
    · exact ⟨.valueError, by rw [calcUtilizationForLocation, if_neg h0, if_pos h1]⟩
    · exact ⟨.indexError,
        by rw [calcUtilizationForLocation, if_neg h0, if_neg h1, if_pos (by omega)]⟩

/-- Witness for the amended C8 at `bins = 0`. -/
theorem calc_nonpositive_bins_error_holds :
    (0 : Int) ≤ 0 ∧
    ∃ err, calcUtilizationForLocation exOneLoc 0 0 10 0 true = .error err :=
  ⟨le_refl 0, calc_nonpositive_bins_error exOneLoc 0 0 10 0 true (le_refl 0)⟩

/-- C9: the resampler is a pure, side-effect-free function of the stored
state and its arguments: it leaves the store unchanged, and calling it again
on the store returned by the first call yields the identical result. -/
theorem calcUtilizationForLocationS_pure (sul : SUL) (bins b e : Int) (loc : Nat)
    (m : Bool) :
    (calcUtilizationForLocationS sul bins b e loc m).2 = sul ∧
    (calcUtilizationForLocationS
        ((calcUtilizationForLocationS sul bins b e loc m).2) bins b e loc m).1
      = (calcUtilizationForLocationS sul bins b e loc m).1 ∧
    (calcUtilizationForLocationS
        ((calcUtilizationForLocationS sul bins b e loc m).2) bins b e loc m).2
      = sul :=
  ⟨rfl, rfl, rfl⟩

/-- C10: when the store contains no locations at all,
`calcUtilizationHistogram` returns the empty sequence — not a `bins`-length
sequence of zeros and not an error. -/
theorem calcUtilizationHistogram_no_locations (c : List (Nat × List Event))
    (bins b e : Int) (m : Bool) :
    calcUtilizationHistogram { locationDict := [], cLocationDict := c } bins b e m
      = .ok [] :=
  rfl

/-- C1 (code bug): `sortAtLoc` discards the result of `sorted(...)`, so the
stored event sequence of location 0 — with indices `[2, 1]` — is returned
unchanged and is not sorted by `index` ascending. -/
theorem sortAtLoc_leaves_unsorted :
    sortAtLoc exUnsorted 0 = .ok exUnsorted ∧
    indexSorted ((exUnsorted.locationDict.lookup 0).getD []) = false :=
  ⟨rfl, rfl⟩

/-- C3 (code bug): for the metric of scenario D — last state `(0, 0)`,
sample value `100` on the interval `[0, 10)` — the entry computation divides
by zero (`enterTimestamp - lastTimestamp = 0`), so no rate `10.0` is stored;
and on any interval where the computation completes (here entry `5`, exit
`10`), the exit event's rate is `0`, not the symmetric gap rate, because the
last-seen state is overwritten with the entry sample before the exit
computation. -/
theorem updateSULForIntervalMetric_exit_rate_zero :
    updateSULForIntervalMetric { tstamp := 0, value := 0 } 100 0 10
      = .error .zeroDivisionError ∧
    updateSULForIntervalMetric { tstamp := 0, value := 0 } 100 5 10
      = .ok ({ index := 5, counter := 0, util := 20 },
             { index := 10, counter := 0, util := 0 },
             { tstamp := 10, value := 100 }) := by
  refine ⟨rfl, ?_⟩
  norm_num [updateSULForIntervalMetric]
